import Mathlib

/-
Verification of the token rotation and recovery engine of CopilotRelay
(`proxy_refactored.py`, class `CopilotTokenManager`).

Shallow embedding conventions:
  - Every credential file is named `<prefix>.copilot_token`; since every
    operation of the engine filters on that suffix, a file is modelled by the
    part of its name before the suffix (`name`, with `""` for the primary
    file `.copilot_token`) together with its contents (`secret`).
  - The two directories (`tokens_dir` and `QuotaExhausted`) are lists of such
    entries; `os.rename` into a directory replaces any entry already carrying
    the destination name (`dirInsert`), exactly as POSIX rename overwrites.
  - Python `int(...)` on a filename stem is modelled by `pyInt?`, faithful to
    `int` on canonical decimal strings (an optional leading minus sign
    followed by decimal digits); `f"{reset_date}"` is modelled by
    `pyStrOptInt`, which renders `None` as the string literal used by Python.
  - The network (`_fetch_copilot_token`) and external races on the secret
    file are modelled by an environment oracle indexed by the loop attempt
    counter: each iteration either finds the secret file gone
    (`FileNotFoundError`), fails the exchange (`requests.RequestException`),
    or receives a parsed JSON response.
-/

namespace CopilotRelay

/-- Decimal digit value of a character, building block of Python `int()`. -/
def charDigit? (c : Char) : Option Nat :=
  if '0' ≤ c ∧ c ≤ '9' then some (c.toNat - '0'.toNat) else none

/-- Python `int()` on a list of characters assumed to be all digits:
fails on the empty string or on any non-digit character. -/
def pyNat? (cs : List Char) : Option Nat :=
  if cs.isEmpty then none
  else (cs.mapM charDigit?).map (fun ds => Nat.ofDigits 10 ds.reverse)

/-- Little-endian decimal digits computed with explicit fuel so that the
function evaluates by kernel reduction; with fuel at least `n` it agrees
with `Nat.digits 10 n`. -/
def pyDigitsAux : Nat → Nat → List Nat
  | _, 0 => []
  | 0, _ + 1 => []
  | fuel + 1, n + 1 => ((n + 1) % 10) :: pyDigitsAux fuel ((n + 1) / 10)

/-- Little-endian decimal digits of a natural number. -/
def pyDigits (n : Nat) : List Nat :=
  pyDigitsAux n n

/-- Python `str()` of a natural number: decimal digits, most significant
first, with `0` rendered as `"0"`. -/
def pyStrNat (n : Nat) : String :=
  if n = 0 then "0" else ⟨((pyDigits n).map Nat.digitChar).reverse⟩

/-- Python `int()` of a string: optional leading minus sign, then digits. -/
def pyInt? (s : String) : Option Int :=
  match s.data with
  | [] => none
  | c :: cs =>
    if c = '-' then (pyNat? cs).map (fun n => -(n : Int))
    else (pyNat? (c :: cs)).map (fun n => (n : Int))

/-- Python `str()` of an integer. -/
def pyStrInt (i : Int) : String :=
  if i < 0 then "-" ++ pyStrNat i.natAbs else pyStrNat i.natAbs

/-- Python `f"{x}"` where `x` is an optional integer (`None` prints as
the four-letter literal). -/
def pyStrOptInt : Option Int → String
  | none => "None"
  | some i => pyStrInt i

/-- A credential file `<name>.copilot_token`: `name` is the part of the
filename before the suffix (`""` for the primary file `.copilot_token`),
`secret` its contents (the stored access token). -/
structure FileEntry where
  name : String
  secret : String
deriving DecidableEq

/-- Effect of `os.rename(src, dir/<e.name>.copilot_token)` on the listing of
the destination directory: any entry already carrying the destination name is
replaced (POSIX rename overwrites), and the moved entry is added. -/
def dirInsert (d : List FileEntry) (e : FileEntry) : List FileEntry :=
  d.filter (fun x => x.name != e.name) ++ [e]

/-- State of a `CopilotTokenManager`: the listings of `tokens_dir`
(`active`) and of the `QuotaExhausted` sub-directory (`exhausted`), plus the
session fields `current_token`, `current_quota_info`, `telemetry_enabled` and
the mutable `Config.API_URL`. -/
structure TMState where
  active : List FileEntry
  exhausted : List FileEntry
  current_token : Option String
  current_quota_info : List (String × Int)
  telemetry_enabled : Bool
  api_url : String
deriving DecidableEq

/-- Python `get_available_token_count`: number of `*.copilot_token` files in
`tokens_dir`. -/
def get_available_token_count (st : TMState) : Nat :=
  st.active.length

/-- Condition under which `_recover_expired_tokens` moves an exhausted entry
back: its filename stem parses as an integer strictly below the current time
(the source tests `reset_timestamp < current_time`); a `ValueError` from
`int(...)` means the entry is skipped. -/
def movable (now : Int) (e : FileEntry) : Bool :=
  match pyInt? e.name with
  | some t => decide (t < now)
  | none => false

/-- Loop body of `_recover_expired_tokens`: walk the snapshot listing of
`QuotaExhausted`, renaming every movable entry into `tokens_dir`; returns the
count recovered together with the final listings of both directories. -/
def recoverLoop (now : Int) : List FileEntry → List FileEntry →
    Nat × List FileEntry × List FileEntry
  | [], active => (0, active, [])
  | e :: rest, active =>
    if movable now e then
      let res := recoverLoop now rest (dirInsert active e)
      (res.1 + 1, res.2.1, res.2.2)
    else
      let res := recoverLoop now rest active
      (res.1, res.2.1, e :: res.2.2)

/-- Python `_recover_expired_tokens`, acting on the whole manager state. -/
def recover (now : Int) (st : TMState) : Nat × TMState :=
  let res := recoverLoop now st.exhausted st.active
  (res.1, { st with active := res.2.1, exhausted := res.2.2 })

/-- Python tuple comparison on `(int(stem), filename)` pairs, the order used
by `numbered_tokens.sort()`. -/
def keyLE (a b : Int × String) : Prop :=
  a.1 < b.1 ∨ (a.1 = b.1 ∧ a.2 ≤ b.2)

instance : DecidableRel keyLE := fun a b =>
  inferInstanceAs (Decidable (a.1 < b.1 ∨ (a.1 = b.1 ∧ a.2 ≤ b.2)))

instance : IsTotal (Int × String) keyLE where
  total a b := by
    rcases lt_trichotomy a.1 b.1 with h | h | h
    · exact Or.inl (Or.inl h)
    · rcases le_total a.2 b.2 with h2 | h2
      · exact Or.inl (Or.inr ⟨h, h2⟩)
      · exact Or.inr (Or.inr ⟨h.symm, h2⟩)
    · exact Or.inr (Or.inl h)

instance : IsTrans (Int × String) keyLE where
  trans a b c hab hbc := by
    rcases hab with h1 | ⟨h1, h1'⟩
    · rcases hbc with h2 | ⟨h2, _⟩
      · exact Or.inl (h1.trans h2)
      · exact Or.inl (h2 ▸ h1)
    · rcases hbc with h2 | ⟨h2, h2'⟩
      · exact Or.inl (h1 ▸ h2)
      · exact Or.inr ⟨h1.trans h2, h1'.trans h2'⟩

/-- Python `_find_next_available_token`: the primary file `.copilot_token`
when it exists, otherwise the numbered `<n>.copilot_token` file whose
`(int(stem), filename)` pair is smallest under `list.sort()` (entries whose
stem raises `ValueError` are skipped), otherwise nothing. The source only
reads the directory, so the model is a pure function of the listing.
`insertionSort` is a stable sort and therefore produces the same list as
Python's stable `list.sort()`. -/
def findNext (active : List FileEntry) : Option String :=
  if active.any (fun e => e.name == "") then some ""
  else
    match (List.insertionSort keyLE (active.filterMap (fun e =>
        if e.name == "" then none
        else (pyInt? e.name).map (fun n => (n, e.name))))).head? with
    | some p => some p.2
    | none => none

/-- Python `_promote_token_to_primary`: rename the chosen file onto
`.copilot_token` unless it already is the primary file. When `load_token`
calls it, the argument always names an existing entry; the impossible
missing-entry branch leaves the directory unchanged. -/
def promote (active : List FileEntry) (p : String) : List FileEntry :=
  if p = "" then active
  else
    match active.find? (fun e => e.name == p) with
    | some e => dirInsert (active.filter (fun x => x.name != p)) ⟨"", e.secret⟩
    | none => active

/-- Demotion step of `load_token` (the rename into `QuotaExhausted`): the
primary file is renamed to `f"{reset_date}.copilot_token"` in the exhausted
directory. When `load_token` reaches this step the primary file always
exists; the impossible missing-primary branch leaves the state unchanged. -/
def demote (st : TMState) (reset_date : Option Int) : TMState :=
  match st.active.find? (fun e => e.name == "") with
  | some pe =>
    { st with
      active := st.active.filter (fun e => e.name != ""),
      exhausted := dirInsert st.exhausted ⟨pyStrOptInt reset_date, pe.secret⟩ }
  | none => st

/-- Parsed JSON body of the upstream exchange
(`GET api.github.com/copilot_internal/v2/token`), with the fields
`load_token` reads: `token`, `limited_user_quotas` (defaulting to `{}`),
`limited_user_reset_date`, `telemetry`, `endpoints.api`. -/
structure ExchangeResponse where
  token : Option String
  quotas : List (String × Int)
  reset_date : Option Int
  telemetry : Option String
  endpoints_api : Option String
deriving DecidableEq

/-- Outcome of one loop iteration's interaction with the outside world:
the secret file vanished before the `open` (`FileNotFoundError`, a race with
an external process), the exchange failed (`requests.RequestException`), or
the exchange returned a parsed response. -/
inductive EnvEvent where
  | stolen
  | netFail
  | reply (r : ExchangeResponse)

/-- Python `dict.get(k)` on the quota mapping. -/
def qlookup (m : List (String × Int)) (k : String) : Option Int :=
  (m.find? (fun p => p.1 == k)).map (fun p => p.2)

/-- Python `Config.MAX_TOKEN_ROTATION_ATTEMPTS`. -/
def MAX_TOKEN_ROTATION_ATTEMPTS : Nat := 100

/-- The `for attempt in range(MAX_TOKEN_ROTATION_ATTEMPTS)` loop of
`load_token`; `fuel` counts the iterations that remain, `attempt` indexes
the environment oracle. Every `continue` of the source consumes one loop
iteration. -/
def loadLoop (env : Nat → EnvEvent) : Nat → Nat → TMState → Bool × TMState
  | _, 0, st => (false, st)
  | attempt, fuel + 1, st =>
    match findNext st.active with
    | none => (false, st)
    | some p =>
      let st1 : TMState := { st with active := promote st.active p }
      match env attempt with
      | .stolen => loadLoop env (attempt + 1) fuel st1
      | .netFail => loadLoop env (attempt + 1) fuel st1
      | .reply r =>
        let chat_quota := (qlookup r.quotas "chat").getD 1
        if chat_quota = 0 then
          let st2 := demote st1 r.reset_date
          if get_available_token_count st2 = 0 then (false, st2)
          else loadLoop env (attempt + 1) fuel st2
        else
          (true,
            { st1 with
              current_token := r.token,
              current_quota_info := r.quotas,
              telemetry_enabled := r.telemetry != some "disabled",
              api_url := r.endpoints_api.getD st1.api_url })

/-- Python `load_token`: recover expired tokens, then rotate through
candidates for at most `MAX_TOKEN_ROTATION_ATTEMPTS` iterations. -/
def load_token (env : Nat → EnvEvent) (now : Int) (st : TMState) :
    Bool × TMState :=
  loadLoop env 0 MAX_TOKEN_ROTATION_ATTEMPTS (recover now st).2

/-- Python `get_current_token`; the source reads the attribute without
taking `token_lock`. -/
def get_current_token (st : TMState) : Option String :=
  st.current_token

/-- Python `get_quota_info`; the source reads the attribute without taking
`token_lock`. -/
def get_quota_info (st : TMState) : List (String × Int) :=
  st.current_quota_info

/-- Python `is_telemetry_enabled`; the source reads the attribute without
taking `token_lock`. -/
def is_telemetry_enabled (st : TMState) : Bool :=
  st.telemetry_enabled

/-- The commit of `load_token` writes the session one assignment at a time
(`current_token`, then `current_quota_info`, then `telemetry_enabled`, then
possibly `Config.API_URL`). Each list element is the manager state right
after one of those assignments; because the getters take no lock, every one
of these intermediate states is observable by a concurrent reader. -/
def commitSteps (st : TMState) (r : ExchangeResponse) : List TMState :=
  let s1 := { st with current_token := r.token }
  let s2 := { s1 with current_quota_info := r.quotas }
  let s3 := { s2 with telemetry_enabled := r.telemetry != some "disabled" }
  let s4 := { s3 with api_url := r.endpoints_api.getD s3.api_url }
  [s1, s2, s3, s4]

/-- Multiset of stored secrets across both directories, used to express that
the engine never deletes a credential. -/
def secretsOf (st : TMState) : List String :=
  st.active.map FileEntry.secret ++ st.exhausted.map FileEntry.secret

/-- Equality of the four session fields, used to express that a failed
`load_token` leaves the committed session untouched. -/
def sessionEq (s t : TMState) : Prop :=
  t.current_token = s.current_token ∧
  t.current_quota_info = s.current_quota_info ∧
  t.telemetry_enabled = s.telemetry_enabled ∧
  t.api_url = s.api_url

lemma pyDigitsAux_eq_digits : ∀ fuel n, n ≤ fuel →
    pyDigitsAux fuel n = Nat.digits 10 n := by
  intro fuel
  induction fuel with
  | zero =>
    intro n hn
    interval_cases n
    simp [pyDigitsAux]
  | succ fuel ih =>
    intro n hn
    cases n with
    | zero => simp [pyDigitsAux]
    | succ n =>
      rw [pyDigitsAux, Nat.digits_def' (by norm_num : (1 : Nat) < 10) (Nat.succ_pos n)]
      have hdiv : (n + 1) / 10 ≤ fuel := by
        have := Nat.div_lt_self (Nat.succ_pos n) (by norm_num : (1 : Nat) < 10)
        omega
      rw [ih _ hdiv]

lemma pyDigits_eq_digits (n : Nat) : pyDigits n = Nat.digits 10 n :=
  pyDigitsAux_eq_digits n n le_rfl

lemma charDigit?_digitChar (d : Nat) (hd : d < 10) :
    charDigit? (Nat.digitChar d) = some d := by
  interval_cases d <;> decide

lemma mapM_charDigit?_map (l : List Nat) (h : ∀ d ∈ l, d < 10) :
    (l.map Nat.digitChar).mapM charDigit? = some l := by
  induction l with
  | nil => rfl
  | cons d t ih =>
    have hd : charDigit? (Nat.digitChar d) = some d :=
      charDigit?_digitChar d (h d (by simp))
    have ht := ih (fun x hx => h x (by simp [hx]))
    rw [List.map_cons, List.mapM_cons, hd, ht]
    rfl

lemma pyNat?_pyStrNat (n : Nat) : pyNat? (pyStrNat n).data = some n := by
  by_cases h : n = 0
  · subst h; decide
  · have hdig : ∀ d ∈ (Nat.digits 10 n).reverse, d < 10 := by
      intro d hd
      exact Nat.digits_lt_base (by norm_num) (List.mem_reverse.mp hd)
    have hne : Nat.digits 10 n ≠ [] := Nat.digits_ne_nil_iff_ne_zero.mpr h
    have hdata : (pyStrNat n).data = ((Nat.digits 10 n).reverse).map Nat.digitChar := by
      simp [pyStrNat, h, List.map_reverse, pyDigits_eq_digits]
    rw [hdata]
    have hnonempty : (((Nat.digits 10 n).reverse).map Nat.digitChar).isEmpty = false := by
      simp [List.isEmpty_iff, hne]
    rw [pyNat?, hnonempty]
    simp only [Bool.false_eq_true, if_false]
    rw [mapM_charDigit?_map _ hdig]
    simp [Nat.ofDigits_digits]

lemma pyStrNat_no_dash (n : Nat) : ∀ c ∈ (pyStrNat n).data, c ≠ '-' := by
  by_cases h : n = 0
  · subst h; decide
  · intro c hc
    have hdata : (pyStrNat n).data = ((Nat.digits 10 n).reverse).map Nat.digitChar := by
      simp [pyStrNat, h, List.map_reverse, pyDigits_eq_digits]
    rw [hdata] at hc
    obtain ⟨d, hd, rfl⟩ := List.mem_map.mp hc
    have hlt : d < 10 := Nat.digits_lt_base (by norm_num) (List.mem_reverse.mp hd)
    interval_cases d <;> decide

lemma pyStrNat_data_ne_nil (n : Nat) : (pyStrNat n).data ≠ [] := by
  by_cases h : n = 0
  · subst h; decide
  · have hne : Nat.digits 10 n ≠ [] := Nat.digits_ne_nil_iff_ne_zero.mpr h
    simp [pyStrNat, h, List.map_reverse, pyDigits_eq_digits]
    intro hcon
    exact hne (by simpa using congrArg List.reverse hcon)

lemma pyInt?_pyStrNat (n : Nat) : pyInt? (pyStrNat n) = some (n : Int) := by
  rcases hd : (pyStrNat n).data with _ | ⟨c, cs⟩
  · exact absurd hd (pyStrNat_data_ne_nil n)
  · have hc : c ≠ '-' := pyStrNat_no_dash n c (by rw [hd]; simp)
    have hround := pyNat?_pyStrNat n
    rw [hd] at hround
    rw [pyInt?, hd]
    simp [hc, hround]

lemma pyInt?_pyStrInt (i : Int) : pyInt? (pyStrInt i) = some i := by
  by_cases h : i < 0
  · have habs : ((i.natAbs : Int)) = -i := Int.ofNat_natAbs_of_nonpos (le_of_lt h)
    have hdata : (pyStrInt i).data = '-' :: (pyStrNat i.natAbs).data := by
      simp [pyStrInt, h, String.data_append]
    rw [pyInt?, hdata]
    simp [pyNat?_pyStrNat, habs]
  · have habs : ((i.natAbs : Int)) = i := Int.natAbs_of_nonneg (le_of_not_lt h)
    have : pyStrInt i = pyStrNat i.natAbs := by simp [pyStrInt, h]
    rw [this, pyInt?_pyStrNat, habs]

lemma pyInt?_pyStrOptInt (t : Int) : pyInt? (pyStrOptInt (some t)) = some t :=
  pyInt?_pyStrInt t

lemma pyInt?_none_literal : pyInt? "None" = none := by decide

lemma pyInt?_empty : pyInt? "" = none := by decide

lemma dirInsert_of_fresh {d : List FileEntry} {x : FileEntry}
    (h : ∀ y ∈ d, y.name ≠ x.name) : dirInsert d x = d ++ [x] := by
  unfold dirInsert
  rw [List.filter_eq_self.mpr]
  intro y hy
  simpa using h y hy

lemma mem_dirInsert_self (d : List FileEntry) (x : FileEntry) :
    x ∈ dirInsert d x := by
  simp [dirInsert]

lemma mem_dirInsert_of_ne {d : List FileEntry} {x y : FileEntry}
    (hy : y ∈ d) (h : y.name ≠ x.name) : y ∈ dirInsert d x :=
  List.mem_append_left _ (List.mem_filter.mpr ⟨hy, by simpa using h⟩)

lemma dirInsert_names_nodup {d : List FileEntry} {x : FileEntry}
    (h : (d.map FileEntry.name).Nodup) :
    ((dirInsert d x).map FileEntry.name).Nodup := by
  unfold dirInsert
  rw [List.map_append, List.nodup_append]
  refine ⟨h.sublist (List.Sublist.map _ (List.filter_sublist d)), List.nodup_singleton _, ?_⟩
  intro a ha hb
  simp only [List.map_cons, List.map_nil, List.mem_singleton] at hb
  subst hb
  obtain ⟨y, hy, hyn⟩ := List.mem_map.mp ha
  have h2 := (List.mem_filter.mp hy).2
  rw [hyn] at h2
  simp at h2

lemma findNext_eq_primary {l : List FileEntry} (h : ∃ e ∈ l, e.name = "") :
    findNext l = some "" := by
  unfold findNext
  rw [if_pos]
  rw [List.any_eq_true]
  obtain ⟨e, he, hn⟩ := h
  exact ⟨e, he, by simp [hn]⟩

lemma findNext_primary_cases {l : List FileEntry} {p : String}
    (h : findNext l = some p) :
    (p = "" ∧ ∃ e ∈ l, e.name = "") ∨
    (p ≠ "" ∧ (∀ e ∈ l, e.name ≠ "") ∧
      ∃ e ∈ l, e.name = p ∧ ∃ n, pyInt? p = some n) := by
  unfold findNext at h
  by_cases hany : l.any (fun e => e.name == "") = true
  · rw [if_pos hany] at h
    obtain ⟨e, he, hb⟩ := List.any_eq_true.mp hany
    exact Or.inl ⟨(Option.some.inj h).symm, e, he, by simpa using hb⟩
  · rw [if_neg hany] at h
    have hno : ∀ e ∈ l, e.name ≠ "" := by
      intro e he
      have := List.any_eq_false.mp (Bool.eq_false_iff.mpr hany) e he
      simpa using this
    rcases hh : (List.insertionSort keyLE (l.filterMap (fun e =>
        if e.name == "" then none
        else (pyInt? e.name).map (fun n => (n, e.name))))).head? with _ | q
    · rw [hh] at h
      cases h
    · rw [hh] at h
      have hp : p = q.2 := (Option.some.inj h).symm
      have hqmem : q ∈ List.insertionSort keyLE (l.filterMap (fun e =>
          if e.name == "" then none
          else (pyInt? e.name).map (fun n => (n, e.name)))) := by
        rcases hsort : List.insertionSort keyLE (l.filterMap (fun e =>
            if e.name == "" then none
            else (pyInt? e.name).map (fun n => (n, e.name)))) with _ | ⟨a, t⟩
        · rw [hsort] at hh
          cases hh
        · rw [hsort] at hh
          rw [hsort]
          have haq : a = q := Option.some.inj hh
          rw [← haq]
          exact List.mem_cons_self a t
      have hqnum := (List.mem_insertionSort keyLE).mp hqmem
      obtain ⟨e, he, hfe⟩ := List.mem_filterMap.mp hqnum
      by_cases hne : e.name = ""
      · simp [hne] at hfe
      · rw [if_neg (by simpa using hne)] at hfe
        rcases hpy : pyInt? e.name with _ | n
        · rw [hpy] at hfe
          cases hfe
        · rw [hpy] at hfe
          have hq2 : q = (n, e.name) := (Option.some.inj hfe).symm
          refine Or.inr ⟨?_, hno, e, he, ?_, ?_⟩
          · rw [hp, hq2]
            exact fun hcon => hne hcon
          · rw [hp, hq2]
          · rw [hp, hq2]
            exact ⟨n, hpy⟩

lemma findNext_minimal {l : List FileEntry} {p : String}
    (h : findNext l = some p) (hno : ∀ e ∈ l, e.name ≠ "") :
    ∃ n, pyInt? p = some n ∧
      ∀ e ∈ l, ∀ m, pyInt? e.name = some m → n ≤ m := by
  unfold findNext at h
  have hany : l.any (fun e => e.name == "") = false := by
    rw [List.any_eq_false]
    intro e he
    simpa using hno e he
  rw [if_neg (by simp [hany])] at h
  rcases hh : (List.insertionSort keyLE (l.filterMap (fun e =>
      if e.name == "" then none
      else (pyInt? e.name).map (fun n => (n, e.name))))).head? with _ | q
  · rw [hh] at h
    cases h
  · rw [hh] at h
    have hp : p = q.2 := (Option.some.inj h).symm
    rcases hsort : List.insertionSort keyLE (l.filterMap (fun e =>
        if e.name == "" then none
        else (pyInt? e.name).map (fun n => (n, e.name)))) with _ | ⟨a, t⟩
    · rw [hsort] at hh
      cases hh
    · rw [hsort] at hh
      have hqa : q = a := (Option.some.inj hh).symm
      have hsorted := List.sorted_insertionSort keyLE (l.filterMap (fun e =>
          if e.name == "" then none
          else (pyInt? e.name).map (fun n => (n, e.name))))
      rw [hsort] at hsorted
      have hmin : ∀ b ∈ t, keyLE a b := List.rel_of_sorted_cons hsorted
      have hamem : a ∈ l.filterMap (fun e =>
          if e.name == "" then none
          else (pyInt? e.name).map (fun n => (n, e.name))) := by
        have : a ∈ List.insertionSort keyLE (l.filterMap (fun e =>
            if e.name == "" then none
            else (pyInt? e.name).map (fun n => (n, e.name)))) := by
          rw [hsort]
          exact List.mem_cons_self a t
        exact (List.mem_insertionSort keyLE).mp this
      obtain ⟨e0, he0, hfe0⟩ := List.mem_filterMap.mp hamem
      rw [if_neg (by simpa using hno e0 he0)] at hfe0
      rcases hpy : pyInt? e0.name with _ | n0
      · rw [hpy] at hfe0
        cases hfe0
      · rw [hpy] at hfe0
        have ha2 : a = (n0, e0.name) := (Option.some.inj hfe0).symm
        refine ⟨n0, ?_, ?_⟩
        · rw [hp, hqa, ha2]
          exact hpy
        · intro e he m hm
          have hmem : (m, e.name) ∈ l.filterMap (fun e =>
              if e.name == "" then none
              else (pyInt? e.name).map (fun n => (n, e.name))) :=
            List.mem_filterMap.mpr ⟨e, he, by rw [if_neg (by simpa using hno e he), hm]; rfl⟩
          have : (m, e.name) ∈ List.insertionSort keyLE (l.filterMap (fun e =>
              if e.name == "" then none
              else (pyInt? e.name).map (fun n => (n, e.name)))) :=
            (List.mem_insertionSort keyLE).mpr hmem
          rw [hsort] at this
          rcases List.mem_cons.mp this with heq | hmem2
          · have : m = n0 := by
              have := congrArg Prod.fst heq
              rw [ha2] at this
              exact this
            omega
          · have hle := hmin _ hmem2
            rw [ha2] at hle
            rcases hle with hlt | ⟨heq, _⟩
            · exact le_of_lt hlt
            · exact le_of_eq heq

lemma recoverLoop_exhausted_eq (now : Int) :
    ∀ pending active, (recoverLoop now pending active).2.2 =
      pending.filter (fun e => !movable now e) := by
  intro pending
  induction pending with
  | nil => intro active; rfl
  | cons e rest ih =>
    intro active
    by_cases hm : movable now e
    · simp [recoverLoop, hm, ih]
    · simp [recoverLoop, hm, ih]

lemma recoverLoop_count_eq (now : Int) :
    ∀ pending active, (recoverLoop now pending active).1 =
      (pending.filter (movable now)).length := by
  intro pending
  induction pending with
  | nil => intro active; rfl
  | cons e rest ih =>
    intro active
    by_cases hm : movable now e
    · simp [recoverLoop, hm, ih]
    · simp [recoverLoop, hm, ih]

lemma recoverLoop_active_stable (now : Int) :
    ∀ pending active (e : FileEntry), e ∈ active →
      (∀ x ∈ pending, movable now x = true → x.name ≠ e.name) →
      e ∈ (recoverLoop now pending active).2.1 := by
  intro pending
  induction pending with
  | nil => intro active e he _; exact he
  | cons f rest ih =>
    intro active e he h
    by_cases hm : movable now f
    · have hne : f.name ≠ e.name := h f (List.mem_cons_self f rest) hm
      simp only [recoverLoop, hm, if_pos]
      exact ih (dirInsert active f) e (mem_dirInsert_of_ne he (fun hcon => hne hcon.symm))
        (fun x hx => h x (List.mem_cons_of_mem f hx))
    · simp only [recoverLoop, hm, Bool.false_eq_true, if_false]
      exact ih active e he (fun x hx => h x (List.mem_cons_of_mem f hx))

lemma recoverLoop_active_mem (now : Int) :
    ∀ pending active, (pending.map FileEntry.name).Nodup →
      ∀ e ∈ pending, movable now e = true →
      e ∈ (recoverLoop now pending active).2.1 := by
  intro pending
  induction pending with
  | nil => intro active _ e he; cases he
  | cons f rest ih =>
    intro active hnd e he hm
    have hnd' : (rest.map FileEntry.name).Nodup := (List.nodup_cons.mp hnd).2
    have hfnotin : f.name ∉ rest.map FileEntry.name := (List.nodup_cons.mp hnd).1
    rcases List.mem_cons.mp he with rfl | he'
    · simp only [recoverLoop, hm, if_pos]
      refine recoverLoop_active_stable now rest (dirInsert active e) e
        (mem_dirInsert_self active e) ?_
      intro x hx _ hcon
      exact hfnotin (hcon ▸ List.mem_map_of_mem FileEntry.name hx)
    · by_cases hmf : movable now f
      · simp only [recoverLoop, hmf, if_pos]
        exact ih (dirInsert active f) hnd' e he' hm
      · simp only [recoverLoop, hmf, Bool.false_eq_true, if_false]
        exact ih active hnd' e he' hm

lemma sessionEq_refl (s : TMState) : sessionEq s s :=
  ⟨rfl, rfl, rfl, rfl⟩

lemma sessionEq_trans {a b c : TMState} (h1 : sessionEq a b) (h2 : sessionEq b c) :
    sessionEq a c :=
  ⟨h2.1.trans h1.1, h2.2.1.trans h1.2.1, h2.2.2.1.trans h1.2.2.1, h2.2.2.2.trans h1.2.2.2⟩

lemma demote_sessionEq (st : TMState) (rd : Option Int) :
    sessionEq st (demote st rd) := by
  unfold demote
  cases hf : st.active.find? (fun e => e.name == "") <;> simp only [hf] <;>
    exact ⟨rfl, rfl, rfl, rfl⟩

lemma recover_sessionEq (now : Int) (st : TMState) :
    sessionEq st (recover now st).2 :=
  ⟨rfl, rfl, rfl, rfl⟩

lemma loadLoop_succ (env : Nat → EnvEvent) (attempt fuel : Nat) (st : TMState) :
    loadLoop env attempt (fuel + 1) st =
      match findNext st.active with
      | none => (false, st)
      | some p =>
        let st1 : TMState := { st with active := promote st.active p }
        match env attempt with
        | .stolen => loadLoop env (attempt + 1) fuel st1
        | .netFail => loadLoop env (attempt + 1) fuel st1
        | .reply r =>
          let chat_quota := (qlookup r.quotas "chat").getD 1
          if chat_quota = 0 then
            let st2 := demote st1 r.reset_date
            if get_available_token_count st2 = 0 then (false, st2)
            else loadLoop env (attempt + 1) fuel st2
          else
            (true,
              { st1 with
                current_token := r.token,
                current_quota_info := r.quotas,
                telemetry_enabled := r.telemetry != some "disabled",
                api_url := r.endpoints_api.getD st1.api_url }) := rfl

lemma loadLoop_allExhausted {env : Nat → EnvEvent}
    (h : ∀ a, ∃ r, env a = EnvEvent.reply r ∧ qlookup r.quotas "chat" = some 0) :
    ∀ fuel attempt st, (loadLoop env attempt fuel st).1 = false ∧
      sessionEq st (loadLoop env attempt fuel st).2 := by
  intro fuel
  induction fuel with
  | zero => intro attempt st; exact ⟨rfl, sessionEq_refl st⟩
  | succ fuel ih =>
    intro attempt st
    rw [loadLoop_succ]
    cases hf : findNext st.active with
    | none => exact ⟨rfl, sessionEq_refl st⟩
    | some p =>
      obtain ⟨r, hr, h0⟩ := h attempt
      simp only [hr, h0, Option.getD_some, if_pos rfl]
      have hs1 : sessionEq st { st with active := promote st.active p } :=
        ⟨rfl, rfl, rfl, rfl⟩
      have hs2 : sessionEq st
          (demote { st with active := promote st.active p } r.reset_date) :=
        sessionEq_trans hs1 (demote_sessionEq _ _)
      by_cases hz : get_available_token_count
          (demote { st with active := promote st.active p } r.reset_date) = 0
      · simp only [hz, if_pos rfl]
        exact ⟨rfl, hs2⟩
      · simp only [hz, if_neg, if_false]
        exact ⟨(ih _ _).1, sessionEq_trans hs2 (ih _ _).2⟩

/-- C2: when every exchange performed during the rotation reports a quota
mapping with `chat = 0` and no exhausted credential is recoverable at the
current time, `load_token` returns `False` (the source signals
`AllCredentialsExhausted` this way) and every session field — exchanged
token, quota snapshot, telemetry flag and API base URL — keeps its prior
committed value. -/
theorem C2_all_exhausted_fails_session_unchanged
    (env : Nat → EnvEvent) (now : Int) (st : TMState)
    (hall : ∀ a, ∃ r, env a = EnvEvent.reply r ∧ qlookup r.quotas "chat" = some 0)
    (hnorec : ∀ e ∈ st.exhausted, movable now e = false) :
    (load_token env now st).1 = false ∧ sessionEq st (load_token env now st).2 := by
  unfold load_token
  obtain ⟨h1, h2⟩ :=
    loadLoop_allExhausted hall MAX_TOKEN_ROTATION_ATTEMPTS 0 (recover now st).2
  exact ⟨h1, sessionEq_trans (recover_sessionEq now st) h2⟩

/-- Witness for C2 at a one-credential store whose exchange reports
`chat = 0`. -/
theorem C2_all_exhausted_fails_session_unchanged_witness :
    (load_token (fun _ => EnvEvent.reply ⟨some "t", [("chat", 0)], some 10, none, none⟩)
        5 ⟨[⟨"", "sA"⟩], [], some "old", [("chat", 3)], true, "u"⟩).1 = false ∧
    sessionEq ⟨[⟨"", "sA"⟩], [], some "old", [("chat", 3)], true, "u"⟩
      (load_token (fun _ => EnvEvent.reply ⟨some "t", [("chat", 0)], some 10, none, none⟩)
        5 ⟨[⟨"", "sA"⟩], [], some "old", [("chat", 3)], true, "u"⟩).2 :=
  C2_all_exhausted_fails_session_unchanged _ 5 _
    (fun _ => ⟨_, rfl, rfl⟩) (by simp)

/-- C3 as stated is false at the boundary: an exhausted credential whose
recovery timestamp equals the current time (`recovery_time ≤ now` holds) is
not moved back, because the source tests `reset_timestamp < current_time`
strictly. -/
theorem C3_counterexample_boundary :
    pyInt? "5" = some 5 ∧ (5 : Int) ≤ 5 ∧
    (recover 5 ⟨[], [⟨"5", "s"⟩], none, [], false, "u"⟩).2.exhausted = [⟨"5", "s"⟩] ∧
    (recover 5 ⟨[], [⟨"5", "s"⟩], none, [], false, "u"⟩).2.active = [] ∧
    (recover 5 ⟨[], [⟨"5", "s"⟩], none, [], false, "u"⟩).1 = 0 := by
  decide

/-- C3 (amended): `_recover_expired_tokens` moves back exactly those
exhausted credentials whose recovery timestamp is strictly before the
current time, and only those; it clears their recovery marker by placing
them in the active directory (still named by their former timestamp, their
rank in the pool), returns the count moved, and skips without error every
entry whose storage key does not parse as a timestamp. -/
theorem C3_reclaim_strictly_expired (now : Int) (st : TMState)
    (hnd : (st.exhausted.map FileEntry.name).Nodup) :
    (recover now st).2.exhausted = st.exhausted.filter (fun e => !movable now e) ∧
    (recover now st).1 = (st.exhausted.filter (movable now)).length ∧
    (∀ e ∈ st.exhausted, movable now e = true → e ∈ (recover now st).2.active) ∧
    (∀ e ∈ st.exhausted, pyInt? e.name = none → e ∈ (recover now st).2.exhausted) ∧
    (∀ e ∈ st.exhausted, movable now e = true ↔ ∃ t, pyInt? e.name = some t ∧ t < now) := by
  refine ⟨recoverLoop_exhausted_eq now st.exhausted st.active,
    recoverLoop_count_eq now st.exhausted st.active,
    fun e he hm => recoverLoop_active_mem now st.exhausted st.active hnd e he hm,
    ?_, ?_⟩
  · intro e he hpy
    have hch := recoverLoop_exhausted_eq now st.exhausted st.active
    show e ∈ (recoverLoop now st.exhausted st.active).2.2
    rw [hch]
    exact List.mem_filter.mpr ⟨he, by simp [movable, hpy]⟩
  · intro e _
    constructor
    · intro hm
      unfold movable at hm
      rcases hpy : pyInt? e.name with _ | t
      · rw [hpy] at hm
        cases hm
      · rw [hpy] at hm
        exact ⟨t, rfl, by simpa using hm⟩
    · rintro ⟨t, hpy, hlt⟩
      unfold movable
      rw [hpy]
      simpa using hlt

/-- Witness for the amended C3 at a store holding one expired and one
unparsable exhausted entry. -/
theorem C3_reclaim_strictly_expired_witness :
    (recover 5 ⟨[], [⟨"3", "a"⟩, ⟨"None", "b"⟩], none, [], false, "u"⟩).2.exhausted =
      [⟨"None", "b"⟩] ∧
    (recover 5 ⟨[], [⟨"3", "a"⟩, ⟨"None", "b"⟩], none, [], false, "u"⟩).1 = 1 ∧
    (⟨"3", "a"⟩ : FileEntry) ∈
      (recover 5 ⟨[], [⟨"3", "a"⟩, ⟨"None", "b"⟩], none, [], false, "u"⟩).2.active := by
  obtain ⟨h1, h2, h3, h4, h5⟩ := C3_reclaim_strictly_expired 5
    ⟨[], [⟨"3", "a"⟩, ⟨"None", "b"⟩], none, [], false, "u"⟩ (by decide)
  refine ⟨?_, ?_, h3 _ (by decide) (by decide)⟩
  · rw [h1]
    decide
  · rw [h2]
    decide

lemma findNext_promote_single (c : FileEntry)
    (hname : c.name = "" ∨ (pyInt? c.name).isSome = true) :
    ∃ p, findNext [c] = some p ∧ promote [c] p = [⟨"", c.secret⟩] := by
  rcases hname with h | h
  · refine ⟨"", findNext_eq_primary ⟨c, List.mem_singleton_self c, h⟩, ?_⟩
    unfold promote
    rw [if_pos rfl]
    have hc : c = ⟨"", c.secret⟩ := by
      cases c
      simp_all
    exact congrArg (fun x => [x]) hc
  · obtain ⟨n, hn⟩ := Option.isSome_iff_exists.mp h
    have hcne : c.name ≠ "" := fun hh => by rw [hh, pyInt?_empty] at hn; cases hn
    refine ⟨c.name, ?_, ?_⟩
    · unfold findNext
      rw [if_neg (by simp [hcne])]
      have hfm : [c].filterMap (fun e =>
          if e.name == "" then none
          else (pyInt? e.name).map (fun n => (n, e.name))) = [(n, c.name)] := by
        simp [hcne, hn]
      rw [hfm]
      rfl
    · unfold promote
      rw [if_neg hcne]
      have hfind : [c].find? (fun e => e.name == c.name) = some c := by simp
      rw [hfind]
      simp [dirInsert]

/-- C1: with exactly one credential in the active pool whose exchange
succeeds and reports `chat = 5` in `limited_user_quotas`, `load_token`
returns `True` and commits the quota mapping, so the committed snapshot maps
`chat` to `5`; and when the quota mapping lacks the `chat` key entirely, the
default `quota_info.get('chat', 1)` makes the credential count as available,
so the session is committed and `load_token` still returns `True`. -/
theorem C1_single_credential_commit
    (c : FileEntry) (r : ExchangeResponse) (st : TMState)
    (env : Nat → EnvEvent) (now : Int)
    (hA : st.active = [c]) (hE : st.exhausted = [])
    (henv : env 0 = EnvEvent.reply r)
    (hname : c.name = "" ∨ (pyInt? c.name).isSome = true)
    (hq : qlookup r.quotas "chat" = some 5 ∨ qlookup r.quotas "chat" = none) :
    (load_token env now st).1 = true ∧
    (load_token env now st).2.current_quota_info = r.quotas ∧
    (qlookup r.quotas "chat" = some 5 →
      qlookup (load_token env now st).2.current_quota_info "chat" = some 5) := by
  obtain ⟨act, exh, tok, qi, tel, url⟩ := st
  dsimp only at hA hE
  subst hA
  subst hE
  obtain ⟨p, hfp, hpp⟩ := findNext_promote_single c hname
  have hrec : (recover now ⟨[c], [], tok, qi, tel, url⟩).2 =
      ⟨[c], [], tok, qi, tel, url⟩ := rfl
  unfold load_token
  rw [hrec, show MAX_TOKEN_ROTATION_ATTEMPTS = 99 + 1 from rfl, loadLoop_succ]
  simp only [hfp, hpp, henv]
  rcases hq with hq | hq
  · simp only [hq, Option.getD_some]
    rw [if_neg (by norm_num)]
    exact ⟨rfl, rfl, fun _ => hq⟩
  · simp only [hq, Option.getD_none]
    rw [if_neg (by norm_num)]
    exact ⟨rfl, rfl, fun h5 => Option.noConfusion h5⟩

/-- Witness for C1: a primary credential whose exchange reports
`{"chat": 5}`. -/
theorem C1_single_credential_commit_witness :
    (load_token (fun _ => EnvEvent.reply ⟨some "tok", [("chat", 5)], some 99, none, none⟩)
        0 ⟨[⟨"", "s"⟩], [], none, [], false, "u"⟩).1 = true ∧
    (load_token (fun _ => EnvEvent.reply ⟨some "tok", [("chat", 5)], some 99, none, none⟩)
        0 ⟨[⟨"", "s"⟩], [], none, [], false, "u"⟩).2.current_quota_info =
      [("chat", 5)] ∧
    qlookup (load_token
        (fun _ => EnvEvent.reply ⟨some "tok", [("chat", 5)], some 99, none, none⟩)
        0 ⟨[⟨"", "s"⟩], [], none, [], false, "u"⟩).2.current_quota_info "chat" =
      some 5 := by
  have h := C1_single_credential_commit ⟨"", "s"⟩
    ⟨some "tok", [("chat", 5)], some 99, none, none⟩
    ⟨[⟨"", "s"⟩], [], none, [], false, "u"⟩
    (fun _ => EnvEvent.reply ⟨some "tok", [("chat", 5)], some 99, none, none⟩)
    0 rfl rfl rfl (Or.inl rfl) (Or.inl rfl)
  exact ⟨h.1, h.2.1, h.2.2 rfl⟩

/-- C8: after a successful `load_token` commit, the stored telemetry flag is
true exactly when the exchange response's `telemetry` field is absent or
differs from the literal string `"disabled"` (the source computes
`api_response.get("telemetry") != "disabled"`, and `get` yields `None` on
absence). -/
theorem C8_telemetry_flag_iff
    (c : FileEntry) (r : ExchangeResponse) (st : TMState)
    (env : Nat → EnvEvent) (now : Int)
    (hA : st.active = [c]) (hE : st.exhausted = [])
    (henv : env 0 = EnvEvent.reply r)
    (hname : c.name = "" ∨ (pyInt? c.name).isSome = true)
    (hq0 : (qlookup r.quotas "chat").getD 1 ≠ 0) :
    (load_token env now st).1 = true ∧
    ((load_token env now st).2.telemetry_enabled = true ↔
      r.telemetry ≠ some "disabled") := by
  obtain ⟨act, exh, tok, qi, tel, url⟩ := st
  dsimp only at hA hE
  subst hA
  subst hE
  obtain ⟨p, hfp, hpp⟩ := findNext_promote_single c hname
  have hrec : (recover now ⟨[c], [], tok, qi, tel, url⟩).2 =
      ⟨[c], [], tok, qi, tel, url⟩ := rfl
  unfold load_token
  rw [hrec, show MAX_TOKEN_ROTATION_ATTEMPTS = 99 + 1 from rfl, loadLoop_succ]
  simp only [hfp, hpp, henv]
  rw [if_neg hq0]
  exact ⟨rfl, bne_iff_ne⟩

/-- Witness for C8: a response whose `telemetry` field holds the disabling
literal yields a false telemetry flag. -/
theorem C8_telemetry_flag_iff_witness :
    (load_token (fun _ => EnvEvent.reply ⟨some "tok", [], some 99, some "disabled", none⟩)
        0 ⟨[⟨"", "s"⟩], [], none, [], false, "u"⟩).1 = true ∧
    (load_token (fun _ => EnvEvent.reply ⟨some "tok", [], some 99, some "disabled", none⟩)
        0 ⟨[⟨"", "s"⟩], [], none, [], false, "u"⟩).2.telemetry_enabled = false := by
  have h := C8_telemetry_flag_iff ⟨"", "s"⟩
    ⟨some "tok", [], some 99, some "disabled", none⟩
    ⟨[⟨"", "s"⟩], [], none, [], false, "u"⟩
    (fun _ => EnvEvent.reply ⟨some "tok", [], some 99, some "disabled", none⟩)
    0 rfl rfl rfl (Or.inl rfl) (by decide)
  exact ⟨h.1, Bool.eq_false_iff.mpr (fun hb => (h.2.mp hb) rfl)⟩

lemma loadLoop_allStolen {env : Nat → EnvEvent}
    (h : ∀ a, env a = EnvEvent.stolen) :
    ∀ fuel attempt st, (loadLoop env attempt fuel st).1 = false := by
  intro fuel
  induction fuel with
  | zero => intro attempt st; rfl
  | succ fuel ih =>
    intro attempt st
    rw [loadLoop_succ]
    cases hf : findNext st.active with
    | none => rfl
    | some p =>
      simp only [h attempt]
      exact ih _ _

/-- C4 as stated is false: the `continue` taken on `FileNotFoundError` sits
inside `for attempt in range(MAX_TOKEN_ROTATION_ATTEMPTS)`, so each skipped
candidate does consume one bounded attempt; one hundred consecutive
benign races make `load_token` return `False` (the rotation-limit failure)
even though a real primary credential is present the whole time. -/
theorem C4_counterexample_stolen_consumes_attempts :
    findNext [(⟨"", "s"⟩ : FileEntry)] = some "" ∧
    (load_token (fun _ => EnvEvent.stolen) 0
      ⟨[⟨"", "s"⟩], [], none, [], false, "u"⟩).1 = false := by
  constructor
  · decide
  · exact loadLoop_allStolen (fun _ => rfl) MAX_TOKEN_ROTATION_ATTEMPTS 0 _

/-- C4 (amended): a candidate whose secret read fails with
`FileNotFoundError` is skipped and immediately retried, but the retry
consumes one of the one hundred bounded attempts: if every iteration hits
the race the rotation fails with `False` even though a credential remains
available, while a single such race followed by a successful exchange still
lets `load_token` succeed. -/
theorem C4_notfound_retry_consumes_attempt
    (c : FileEntry) (r : ExchangeResponse) (st : TMState) (now : Int)
    (env : Nat → EnvEvent)
    (hA : st.active = [c]) (hE : st.exhausted = [])
    (hname : c.name = "" ∨ (pyInt? c.name).isSome = true)
    (hq0 : (qlookup r.quotas "chat").getD 1 ≠ 0)
    (henv0 : env 0 = EnvEvent.stolen)
    (henv1 : env 1 = EnvEvent.reply r) :
    (load_token (fun _ => EnvEvent.stolen) now st).1 = false ∧
    (load_token env now st).1 = true := by
  obtain ⟨act, exh, tok, qi, tel, url⟩ := st
  dsimp only at hA hE
  subst hA
  subst hE
  constructor
  · exact loadLoop_allStolen (fun _ => rfl) MAX_TOKEN_ROTATION_ATTEMPTS 0 _
  · obtain ⟨p, hfp, hpp⟩ := findNext_promote_single c hname
    have hrec : (recover now ⟨[c], [], tok, qi, tel, url⟩).2 =
        ⟨[c], [], tok, qi, tel, url⟩ := rfl
    have henv1' : env (0 + 1) = EnvEvent.reply r := henv1
    unfold load_token
    rw [hrec, show MAX_TOKEN_ROTATION_ATTEMPTS = 99 + 1 from rfl, loadLoop_succ]
    simp only [hfp, hpp, henv0]
    rw [show (99 : Nat) = 98 + 1 from rfl, loadLoop_succ]
    have hf2 : findNext [(⟨"", c.secret⟩ : FileEntry)] = some "" :=
      findNext_eq_primary ⟨⟨"", c.secret⟩, by simp, rfl⟩
    simp only [hf2, promote, if_pos rfl, henv1']
    rw [if_neg hq0]

/-- Witness for the amended C4 at a concrete one-credential store. -/
theorem C4_notfound_retry_consumes_attempt_witness :
    (load_token (fun _ => EnvEvent.stolen) 0
      ⟨[⟨"", "s"⟩], [], none, [], false, "u"⟩).1 = false ∧
    (load_token (fun a => if a = 0 then EnvEvent.stolen
        else EnvEvent.reply ⟨some "tok", [("chat", 9)], some 3, none, none⟩) 0
      ⟨[⟨"", "s"⟩], [], none, [], false, "u"⟩).1 = true :=
  C4_notfound_retry_consumes_attempt ⟨"", "s"⟩
    ⟨some "tok", [("chat", 9)], some 3, none, none⟩
    ⟨[⟨"", "s"⟩], [], none, [], false, "u"⟩ 0 _ rfl rfl (Or.inl rfl) (by decide)
    rfl rfl

/-- C5: `_find_next_available_token` returns the primary file whenever one
exists; otherwise it returns a numbered credential of minimal rank;
otherwise nothing (it performs no writes, being modelled as a pure function
of the listing). After `_promote_token_to_primary` of any credential found
in the pool, the next lookup returns the primary slot now holding that
credential's secret, and promotion of the file already primary is the
identity. -/
theorem C5_next_candidate_spec (active : List FileEntry) :
    ((∃ e ∈ active, e.name = "") → findNext active = some "") ∧
    ((∀ e ∈ active, e.name ≠ "") → ∀ p, findNext active = some p →
      (∃ e ∈ active, e.name = p) ∧
      ∃ n, pyInt? p = some n ∧
        ∀ e ∈ active, ∀ m, pyInt? e.name = some m → n ≤ m) ∧
    ((∀ e ∈ active, e.name ≠ "" ∧ pyInt? e.name = none) → findNext active = none) ∧
    (∀ x e, active.find? (fun y => y.name == x) = some e →
      findNext (promote active x) = some "" ∧
      (⟨"", e.secret⟩ : FileEntry) ∈ promote active x) ∧
    promote active "" = active := by
  refine ⟨findNext_eq_primary, ?_, ?_, ?_, rfl⟩
  · intro hno p hp
    rcases findNext_primary_cases hp with ⟨_, e, he, hen⟩ | ⟨_, _, e, he, hep, _⟩
    · exact absurd hen (hno e he)
    · exact ⟨⟨e, he, hep⟩, findNext_minimal hp hno⟩
  · intro h
    unfold findNext
    rw [if_neg (by
      simp only [List.any_eq_true, not_exists]
      rintro e ⟨he, hb⟩
      exact (h e he).1 (by simpa using hb))]
    have hfm : active.filterMap (fun e =>
        if e.name == "" then none
        else (pyInt? e.name).map (fun n => (n, e.name))) = [] := by
      rw [List.filterMap_eq_nil_iff]
      intro e he
      rw [if_neg (by simpa using (h e he).1), (h e he).2]
      rfl
    rw [hfm]
    rfl
  · intro x e hfind
    have he : e ∈ active := List.mem_of_find?_eq_some hfind
    have hex : e.name = x := by simpa using List.find?_some hfind
    by_cases hx : x = ""
    · subst hx
      have hee : e = ⟨"", e.secret⟩ := by
        cases e
        simp_all
      unfold promote
      rw [if_pos rfl]
      exact ⟨findNext_eq_primary ⟨e, he, hex⟩, hee ▸ he⟩
    · unfold promote
      rw [if_neg hx, hfind]
      constructor
      · exact findNext_eq_primary ⟨⟨"", e.secret⟩, mem_dirInsert_self _ _, rfl⟩
      · exact mem_dirInsert_self _ _

/-- Witness for C5: the primary wins when present, rank 1 beats rank 2, and
promotion of the primary is the identity. -/
theorem C5_next_candidate_spec_witness :
    findNext [(⟨"", "p"⟩ : FileEntry)] = some "" ∧
    findNext [(⟨"2", "a"⟩ : FileEntry), ⟨"1", "c"⟩] = some "1" ∧
    promote [(⟨"2", "a"⟩ : FileEntry)] "" = [⟨"2", "a"⟩] := by
  obtain ⟨hex, n, hn, hmin⟩ :=
    (C5_next_candidate_spec [⟨"2", "a"⟩, ⟨"1", "c"⟩]).2.1 (by decide) "1" (by decide)
  exact ⟨(C5_next_candidate_spec [⟨"", "p"⟩]).1 ⟨⟨"", "p"⟩, by simp, rfl⟩,
    by decide, (C5_next_candidate_spec [⟨"2", "a"⟩]).2.2.2.2⟩

/-- C6: after the demotion rename stamps the primary credential with reset
time `t`, no active entry occupies the primary slot any more, so
`_find_next_available_token` can no longer return it; the demoted credential
sits in the exhausted directory under the key `str(t)`, and
`_recover_expired_tokens` run at any time strictly before `t` leaves it
there. -/
theorem C6_demote_excludes_candidate
    (st : TMState) (t : Int) (pe : FileEntry)
    (hp : st.active.find? (fun e => e.name == "") = some pe) :
    (∀ e ∈ (demote st (some t)).active, e.name ≠ "") ∧
    findNext (demote st (some t)).active ≠ some "" ∧
    (⟨pyStrInt t, pe.secret⟩ : FileEntry) ∈ (demote st (some t)).exhausted ∧
    (∀ now, now < t →
      (⟨pyStrInt t, pe.secret⟩ : FileEntry) ∈
        (recover now (demote st (some t))).2.exhausted) := by
  have hact : (demote st (some t)).active =
      st.active.filter (fun e => e.name != "") := by
    unfold demote
    simp only [hp]
  have hexh : (demote st (some t)).exhausted =
      dirInsert st.exhausted ⟨pyStrInt t, pe.secret⟩ := by
    unfold demote
    simp only [hp]
    rfl
  have hnone : ∀ e ∈ (demote st (some t)).active, e.name ≠ "" := by
    intro e he
    rw [hact] at he
    simpa using (List.mem_filter.mp he).2
  refine ⟨hnone, ?_, ?_, ?_⟩
  · intro hcon
    rcases findNext_primary_cases hcon with ⟨_, e, he, hen⟩ | ⟨hne, _⟩
    · exact hnone e he hen
    · exact hne rfl
  · rw [hexh]
    exact mem_dirInsert_self _ _
  · intro now hlt
    have hmem : (⟨pyStrInt t, pe.secret⟩ : FileEntry) ∈
        (demote st (some t)).exhausted := by
      rw [hexh]
      exact mem_dirInsert_self _ _
    have hmov : movable now ⟨pyStrInt t, pe.secret⟩ = false := by
      unfold movable
      rw [show pyInt? (FileEntry.name ⟨pyStrInt t, pe.secret⟩) = some t from
        pyInt?_pyStrInt t]
      simpa using not_lt.mpr (le_of_lt hlt)
    have hch := recoverLoop_exhausted_eq now (demote st (some t)).exhausted
      (demote st (some t)).active
    show (⟨pyStrInt t, pe.secret⟩ : FileEntry) ∈
      (recoverLoop now (demote st (some t)).exhausted (demote st (some t)).active).2.2
    rw [hch]
    exact List.mem_filter.mpr ⟨hmem, by rw [hmov]; rfl⟩

/-- Witness for C6 with a single primary credential demoted to reset time
10 and a recovery sweep at time 9. -/
theorem C6_demote_excludes_candidate_witness :
    findNext (demote ⟨[⟨"", "sA"⟩], [], none, [], false, "u"⟩ (some 10)).active =
      none ∧
    (⟨pyStrInt 10, "sA"⟩ : FileEntry) ∈
      (recover 9 (demote ⟨[⟨"", "sA"⟩], [], none, [], false, "u"⟩ (some 10))).2.exhausted := by
  have h := C6_demote_excludes_candidate ⟨[⟨"", "sA"⟩], [], none, [], false, "u"⟩
    10 ⟨"", "sA"⟩ (by decide)
  refine ⟨?_, h.2.2.2 9 (by decide)⟩
  cases hf : findNext (demote ⟨[⟨"", "sA"⟩], [], none, [], false, "u"⟩ (some 10)).active with
  | none => rfl
  | some p =>
    rcases findNext_primary_cases hf with ⟨rfl, hex⟩ | ⟨_, _, e, he, hep, n, hn⟩
    · exact absurd hf h.2.1
    · have hact : (demote ⟨[⟨"", "sA"⟩], [], none, [], false, "u"⟩ (some 10)).active =
          [] := by decide
      rw [hact] at he
      cases he

/-- C7 fails on the code: the commit writes the session fields one
assignment at a time while the getters read without acquiring `token_lock`,
so a reader scheduled between the first and second assignment observes the
newly exchanged token paired with the previous quota snapshot — a session
state that is neither the prior committed one nor the new one. -/
theorem C7_commit_interleaving_observable :
    (commitSteps ⟨[], [], some "oldTok", [("chat", 0)], false, "u"⟩
        ⟨some "newTok", [("chat", 5)], none, none, none⟩).head? =
      some ⟨[], [], some "newTok", [("chat", 0)], false, "u"⟩ ∧
    get_current_token ⟨[], [], some "newTok", [("chat", 0)], false, "u"⟩ =
      some "newTok" ∧
    get_quota_info ⟨[], [], some "newTok", [("chat", 0)], false, "u"⟩ =
      [("chat", 0)] ∧
    (some "newTok" : Option String) ≠ some "oldTok" ∧
    ([("chat", 0)] : List (String × Int)) ≠ [("chat", 5)] := by
  decide

/-- C10: a demotion performed while the exchange response lacks
`limited_user_reset_date` files the credential under the unparsable key
`"None"`, and `_recover_expired_tokens` can never restore an entry with that
key, at any sweep time whatsoever. -/
theorem C10_none_reset_never_recovered
    (st : TMState) (env : Nat → EnvEvent) (now : Int)
    (r : ExchangeResponse) (c : FileEntry)
    (hA : st.active = [c]) (hE : st.exhausted = [])
    (hname : c.name = "" ∨ (pyInt? c.name).isSome = true)
    (henv : env 0 = EnvEvent.reply r)
    (hq : qlookup r.quotas "chat" = some 0)
    (hrd : r.reset_date = none) :
    (load_token env now st).1 = false ∧
    (load_token env now st).2.exhausted = [⟨"None", c.secret⟩] ∧
    (∀ st' now', ∀ e ∈ st'.exhausted, e.name = "None" →
      e ∈ (recover now' st').2.exhausted) := by
  have hgen : ∀ (st' : TMState) (now' : Int), ∀ e ∈ st'.exhausted,
      e.name = "None" → e ∈ (recover now' st').2.exhausted := by
    intro st' now' e he hen
    have hmov : movable now' e = false := by
      unfold movable
      rw [hen, pyInt?_none_literal]
    have hch := recoverLoop_exhausted_eq now' st'.exhausted st'.active
    show e ∈ (recoverLoop now' st'.exhausted st'.active).2.2
    rw [hch]
    exact List.mem_filter.mpr ⟨he, by rw [hmov]; rfl⟩
  obtain ⟨act, exh, tok, qi, tel, url⟩ := st
  dsimp only at hA hE
  subst hA
  subst hE
  obtain ⟨p, hfp, hpp⟩ := findNext_promote_single c hname
  have hrec : (recover now ⟨[c], [], tok, qi, tel, url⟩).2 =
      ⟨[c], [], tok, qi, tel, url⟩ := rfl
  have hdem : demote ⟨[⟨"", c.secret⟩], [], tok, qi, tel, url⟩ none =
      ⟨[], [⟨"None", c.secret⟩], tok, qi, tel, url⟩ := rfl
  unfold load_token
  rw [hrec, show MAX_TOKEN_ROTATION_ATTEMPTS = 99 + 1 from rfl, loadLoop_succ]
  simp only [hfp, hpp, henv, hq, Option.getD_some, if_pos rfl, hrd, hdem]
  exact ⟨rfl, rfl, hgen⟩

/-- Witness for C10: one primary credential, exchange reporting `chat = 0`
with no reset date; afterwards the credential is parked under `"None"` and a
sweep far in the future still does not restore a `"None"`-keyed entry. -/
theorem C10_none_reset_never_recovered_witness :
    (load_token (fun _ => EnvEvent.reply ⟨some "t", [("chat", 0)], none, none, none⟩)
      0 ⟨[⟨"", "sA"⟩], [], none, [], false, "u"⟩).1 = false ∧
    (load_token (fun _ => EnvEvent.reply ⟨some "t", [("chat", 0)], none, none, none⟩)
      0 ⟨[⟨"", "sA"⟩], [], none, [], false, "u"⟩).2.exhausted =
      [⟨"None", "sA"⟩] ∧
    (⟨"None", "sA"⟩ : FileEntry) ∈
      (recover 999999 ⟨[], [⟨"None", "sA"⟩], none, [], false, "u"⟩).2.exhausted := by
  have h := C10_none_reset_never_recovered
    ⟨[⟨"", "sA"⟩], [], none, [], false, "u"⟩
    (fun _ => EnvEvent.reply ⟨some "t", [("chat", 0)], none, none, none⟩) 0
    ⟨some "t", [("chat", 0)], none, none, none⟩ ⟨"", "sA"⟩
    rfl rfl (Or.inl rfl) rfl rfl rfl
  exact ⟨h.1, h.2.1,
    h.2.2 ⟨[], [⟨"None", "sA"⟩], none, [], false, "u"⟩ 999999 _ (by decide) rfl⟩

lemma promote_preserves {active : List FileEntry} {p : String}
    (hnd : (active.map FileEntry.name).Nodup)
    (hfp : findNext active = some p) :
    ((promote active p).map FileEntry.name).Nodup ∧
    (∀ s ∈ active.map FileEntry.secret, s ∈ (promote active p).map FileEntry.secret) := by
  by_cases hp : p = ""
  · subst hp
    unfold promote
    rw [if_pos rfl]
    exact ⟨hnd, fun s hs => hs⟩
  · have hnoprim : ∀ e ∈ active, e.name ≠ "" := by
      rcases findNext_primary_cases hfp with ⟨h1, _⟩ | ⟨_, h2, _⟩
      · exact (hp h1).elim
      · exact h2
    have hmem : ∃ e ∈ active, e.name = p := by
      rcases findNext_primary_cases hfp with ⟨h1, _⟩ | ⟨_, _, e, he, hep, _⟩
      · exact (hp h1).elim
      · exact ⟨e, he, hep⟩
    unfold promote
    rw [if_neg hp]
    rcases hfind : active.find? (fun e => e.name == p) with _ | e
    · rw [List.find?_eq_none] at hfind
      obtain ⟨e, he, hep⟩ := hmem
      exact absurd (by simpa using hep) (hfind e he)
    · simp only [hfind]
      have he : e ∈ active := List.mem_of_find?_eq_some hfind
      have hep : e.name = p := by simpa using List.find?_some hfind
      constructor
      · exact dirInsert_names_nodup
          (hnd.sublist (List.Sublist.map _ (List.filter_sublist active)))
      · intro s hs
        obtain ⟨x, hx, hxs⟩ := List.mem_map.mp hs
        by_cases hxp : x.name = p
        · have hxe : x = e :=
            List.inj_on_of_nodup_map hnd hx he (by rw [hxp, hep])
          refine List.mem_map.mpr ⟨⟨"", e.secret⟩, mem_dirInsert_self _ _, ?_⟩
          rw [← hxs, hxe]
        · have hx1 : x ∈ active.filter (fun y => y.name != p) :=
            List.mem_filter.mpr ⟨hx, by simpa using hxp⟩
          exact List.mem_map.mpr
            ⟨x, mem_dirInsert_of_ne hx1 (hnoprim x hx), hxs⟩

lemma demote_preserves (st : TMState) (rd : Option Int)
    (hndA : (st.active.map FileEntry.name).Nodup)
    (hndE : (st.exhausted.map FileEntry.name).Nodup)
    (hk : pyStrOptInt rd ∉ st.exhausted.map FileEntry.name) :
    ((demote st rd).active.map FileEntry.name).Nodup ∧
    ((demote st rd).exhausted.map FileEntry.name).Nodup ∧
    (∀ s ∈ secretsOf st, s ∈ secretsOf (demote st rd)) ∧
    (∀ n ∈ (demote st rd).exhausted.map FileEntry.name,
      n = pyStrOptInt rd ∨ n ∈ st.exhausted.map FileEntry.name) := by
  unfold demote
  cases hf : st.active.find? (fun e => e.name == "") with
  | none =>
    simp only [hf]
    exact ⟨hndA, hndE, fun s hs => hs, fun n hn => Or.inr hn⟩
  | some pe =>
    simp only [hf]
    have hpe_mem : pe ∈ st.active := List.mem_of_find?_eq_some hf
    have hpe_name : pe.name = "" := by simpa using List.find?_some hf
    have hexh : dirInsert st.exhausted ⟨pyStrOptInt rd, pe.secret⟩ =
        st.exhausted ++ [⟨pyStrOptInt rd, pe.secret⟩] :=
      dirInsert_of_fresh (fun y hy hcon => hk (by
        have hyn : y.name = pyStrOptInt rd := hcon
        rw [← hyn]
        exact List.mem_map_of_mem _ hy))
    refine ⟨hndA.sublist (List.Sublist.map _ (List.filter_sublist _)), ?_, ?_, ?_⟩
    · rw [hexh, List.map_append, List.nodup_append]
      refine ⟨hndE, List.nodup_singleton _, ?_⟩
      intro a ha hb
      simp only [List.map_cons, List.map_nil, List.mem_singleton] at hb
      subst hb
      exact hk ha
    · intro s hs
      unfold secretsOf at hs ⊢
      rcases List.mem_append.mp hs with hsa | hse
      · obtain ⟨x, hx, hxs⟩ := List.mem_map.mp hsa
        by_cases hxprim : x.name = ""
        · have hxpe : x = pe :=
            List.inj_on_of_nodup_map hndA hx hpe_mem (by rw [hxprim, hpe_name])
          apply List.mem_append_right
          rw [hexh, List.map_append]
          apply List.mem_append_right
          simp [← hxs, hxpe]
        · apply List.mem_append_left
          exact List.mem_map.mpr
            ⟨x, List.mem_filter.mpr ⟨hx, by simpa using hxprim⟩, hxs⟩
      · apply List.mem_append_right
        rw [hexh, List.map_append]
        exact List.mem_append_left _ hse
    · intro n hn
      rw [hexh, List.map_append] at hn
      rcases List.mem_append.mp hn with h1 | h2
      · exact Or.inr h1
      · simp only [List.map_cons, List.map_nil, List.mem_singleton] at h2
        exact Or.inl h2

lemma recoverLoop_secrets (now : Int) :
    ∀ pending active, (pending.map FileEntry.name).Nodup →
      (∀ e ∈ pending, movable now e = true → e.name ∉ active.map FileEntry.name) →
      ∀ s, s ∈ active.map FileEntry.secret ∨ s ∈ pending.map FileEntry.secret →
        s ∈ (recoverLoop now pending active).2.1.map FileEntry.secret ∨
        s ∈ (recoverLoop now pending active).2.2.map FileEntry.secret := by
  intro pending
  induction pending with
  | nil =>
    intro active _ _ s hs
    rcases hs with h | h
    · exact Or.inl h
    · simp at h
  | cons f rest ih =>
    intro active hnd hfresh s hs
    have hnd2 : (rest.map FileEntry.name).Nodup :=
      (List.nodup_cons.mp (by simpa using hnd)).2
    have hfni : f.name ∉ rest.map FileEntry.name :=
      (List.nodup_cons.mp (by simpa using hnd)).1
    by_cases hm : movable now f
    · have hDI : dirInsert active f = active ++ [f] :=
        dirInsert_of_fresh (fun y hy hcon =>
          hfresh f (List.mem_cons_self f rest) hm (hcon ▸ List.mem_map_of_mem _ hy))
      simp only [recoverLoop, hm, if_pos]
      apply ih (dirInsert active f) hnd2
      · intro e he hme hcon
        rw [hDI, List.map_append] at hcon
        rcases List.mem_append.mp hcon with h1 | h1
        · exact hfresh e (List.mem_cons_of_mem f he) hme h1
        · simp only [List.map_cons, List.map_nil, List.mem_singleton] at h1
          exact hfni (h1 ▸ List.mem_map_of_mem _ he)
      · rcases hs with h1 | h1
        · left
          rw [hDI, List.map_append]
          exact List.mem_append_left _ h1
        · simp only [List.map_cons] at h1
          rcases List.mem_cons.mp h1 with h2 | h2
          · left
            rw [hDI, List.map_append]
            apply List.mem_append_right
            simp [h2]
          · exact Or.inr h2
    · simp only [recoverLoop, hm, Bool.false_eq_true, if_false]
      rcases hs with h1 | h1
      · rcases ih active hnd2
            (fun e he hme => hfresh e (List.mem_cons_of_mem f he) hme) s (Or.inl h1) with
            h3 | h3
        · exact Or.inl h3
        · right
          simp only [List.map_cons]
          exact List.mem_cons_of_mem _ h3
      · simp only [List.map_cons] at h1
        rcases List.mem_cons.mp h1 with h2 | h2
        · right
          simp [h2]
        · rcases ih active hnd2
            (fun e he hme => hfresh e (List.mem_cons_of_mem f he) hme) s (Or.inr h2) with
            h3 | h3
          · exact Or.inl h3
          · right
            simp only [List.map_cons]
            exact List.mem_cons_of_mem _ h3

lemma recoverLoop_active_nodup (now : Int) :
    ∀ pending active, (active.map FileEntry.name).Nodup →
      ((recoverLoop now pending active).2.1.map FileEntry.name).Nodup := by
  intro pending
  induction pending with
  | nil => intro active h; exact h
  | cons f rest ih =>
    intro active h
    by_cases hm : movable now f
    · simp only [recoverLoop, hm, if_pos]
      exact ih _ (dirInsert_names_nodup h)
    · simp only [recoverLoop, hm, Bool.false_eq_true, if_false]
      exact ih _ h

lemma loadLoop_preserves_secrets (env : Nat → EnvEvent)
    (hpair : ∀ a b ra rb, a ≠ b → env a = EnvEvent.reply ra →
      env b = EnvEvent.reply rb →
      pyStrOptInt ra.reset_date ≠ pyStrOptInt rb.reset_date)
    (N0 : List String)
    (hN0 : ∀ a ra, env a = EnvEvent.reply ra → pyStrOptInt ra.reset_date ∉ N0) :
    ∀ fuel attempt st,
      (st.active.map FileEntry.name).Nodup →
      (st.exhausted.map FileEntry.name).Nodup →
      (∀ n ∈ st.exhausted.map FileEntry.name, n ∈ N0 ∨
        ∃ b rb, b < attempt ∧ env b = EnvEvent.reply rb ∧
          n = pyStrOptInt rb.reset_date) →
      ∀ s ∈ secretsOf st, s ∈ secretsOf (loadLoop env attempt fuel st).2 := by
  intro fuel
  induction fuel with
  | zero => intro attempt st _ _ _ s hs; exact hs
  | succ fuel ih =>
    intro attempt st hndA hndE hsub s hs
    rw [loadLoop_succ]
    cases hf : findNext st.active with
    | none => exact hs
    | some p =>
      obtain ⟨hndA1, hsec1⟩ := promote_preserves hndA hf
      have hs1 : s ∈ secretsOf { st with active := promote st.active p } := by
        unfold secretsOf at hs ⊢
        rcases List.mem_append.mp hs with h1 | h1
        · exact List.mem_append_left _ (hsec1 s h1)
        · exact List.mem_append_right _ h1
      have hsub1 : ∀ n ∈ st.exhausted.map FileEntry.name, n ∈ N0 ∨
          ∃ b rb, b < attempt + 1 ∧ env b = EnvEvent.reply rb ∧
            n = pyStrOptInt rb.reset_date := by
        intro n hn
        rcases hsub n hn with h1 | ⟨b, rb, hb, hbe, hbn⟩
        · exact Or.inl h1
        · exact Or.inr ⟨b, rb, Nat.lt_succ_of_lt hb, hbe, hbn⟩
      cases he : env attempt with
      | stolen =>
        exact ih (attempt + 1) { st with active := promote st.active p }
          hndA1 hndE hsub1 s hs1
      | netFail =>
        exact ih (attempt + 1) { st with active := promote st.active p }
          hndA1 hndE hsub1 s hs1
      | reply r =>
        by_cases hq : (qlookup r.quotas "chat").getD 1 = 0
        · simp only [hq, if_pos rfl]
          have hk : pyStrOptInt r.reset_date ∉
              ({ st with active := promote st.active p } : TMState).exhausted.map
                FileEntry.name := by
            intro hmem
            rcases hsub _ hmem with hN | ⟨b, rb, hb, hbe, hbn⟩
            · exact hN0 attempt r he hN
            · exact hpair b attempt rb r (Nat.ne_of_lt hb) hbe he hbn.symm
          obtain ⟨hndA2, hndE2, hsec2, hsub2⟩ :=
            demote_preserves { st with active := promote st.active p }
              r.reset_date hndA1 hndE hk
          have hs2 : s ∈ secretsOf
              (demote { st with active := promote st.active p } r.reset_date) :=
            hsec2 s hs1
          by_cases hz : get_available_token_count
              (demote { st with active := promote st.active p } r.reset_date) = 0
          · rw [if_pos hz]
            exact hs2
          · rw [if_neg hz]
            apply ih (attempt + 1) _ hndA2 hndE2 _ s hs2
            intro n hn
            rcases hsub2 n hn with h1 | h1
            · exact Or.inr ⟨attempt, r, Nat.lt_succ_self attempt, he, h1⟩
            · rcases hsub1 n h1 with h2 | h2
              · exact Or.inl h2
              · exact Or.inr h2
        · simp only [if_neg hq]
          exact hs1

/-- C9 as stated is false: `os.rename` overwrites its destination, so two
demotions stamped with the same reset timestamp collide in `QuotaExhausted`
and the first demoted credential's secret is deleted by a single
`load_token` call. -/
theorem C9_counterexample_rename_collision :
    "sA" ∈ secretsOf ⟨[⟨"", "sA"⟩, ⟨"1", "sB"⟩], [], none, [], false, "u"⟩ ∧
    "sA" ∉ secretsOf (load_token
        (fun _ => EnvEvent.reply ⟨some "t", [("chat", 0)], some 7, none, none⟩) 0
        ⟨[⟨"", "sA"⟩, ⟨"1", "sB"⟩], [], none, [], false, "u"⟩).2 := by
  decide

/-- C9 (amended): the engine only moves and renames credential files, so no
operation of a `load_token` call deletes a credential as long as no rename
lands on an occupied key: with duplicate-free directory listings, recovered
timestamps distinct from active ranks, and the reset timestamps stamped on
demotions pairwise distinct and distinct from the keys already parked in
`QuotaExhausted`, every secret present beforehand is still present in one of
the two directories afterwards. Two demotions stamped with an equal reset
date violate the freshness hypothesis and do delete a credential. -/
theorem C9_no_deletion_without_collision
    (env : Nat → EnvEvent) (now : Int) (st : TMState)
    (hndA : (st.active.map FileEntry.name).Nodup)
    (hndE : (st.exhausted.map FileEntry.name).Nodup)
    (hmf : ∀ e ∈ st.exhausted, movable now e = true →
      e.name ∉ st.active.map FileEntry.name)
    (hpair : ∀ a b ra rb, a ≠ b → env a = EnvEvent.reply ra →
      env b = EnvEvent.reply rb →
      pyStrOptInt ra.reset_date ≠ pyStrOptInt rb.reset_date)
    (hN0 : ∀ a ra, env a = EnvEvent.reply ra →
      pyStrOptInt ra.reset_date ∉ st.exhausted.map FileEntry.name) :
    ∀ s ∈ secretsOf st, s ∈ secretsOf (load_token env now st).2 := by
  intro s hs
  have hexq := recoverLoop_exhausted_eq now st.exhausted st.active
  have hrecA : ((recover now st).2.active.map FileEntry.name).Nodup :=
    recoverLoop_active_nodup now st.exhausted st.active hndA
  have hrecE : ((recover now st).2.exhausted.map FileEntry.name).Nodup := by
    show ((recoverLoop now st.exhausted st.active).2.2.map FileEntry.name).Nodup
    rw [hexq]
    exact hndE.sublist (List.Sublist.map _ (List.filter_sublist _))
  have hsub0 : ∀ n ∈ (recover now st).2.exhausted.map FileEntry.name,
      n ∈ st.exhausted.map FileEntry.name := by
    intro n hn
    have hn' : n ∈ (recoverLoop now st.exhausted st.active).2.2.map
        FileEntry.name := hn
    rw [hexq] at hn'
    obtain ⟨e, he, rfl⟩ := List.mem_map.mp hn'
    exact List.mem_map_of_mem _ (List.mem_of_mem_filter he)
  have hs' : s ∈ secretsOf (recover now st).2 := by
    have hsplit := List.mem_append.mp hs
    have h := recoverLoop_secrets now st.exhausted st.active hndE hmf s
      (by
        rcases hsplit with h1 | h1
        · exact Or.inl h1
        · exact Or.inr h1)
    rcases h with h1 | h1
    · exact List.mem_append_left _ h1
    · exact List.mem_append_right _ h1
  exact loadLoop_preserves_secrets env hpair (st.exhausted.map FileEntry.name)
    hN0 MAX_TOKEN_ROTATION_ATTEMPTS 0 (recover now st).2 hrecA hrecE
    (fun n hn => Or.inl (hsub0 n hn)) s hs'

/-- Witness for the amended C9: two active credentials, one recoverable
exhausted credential, and a single demotion with a fresh reset key; all
three secrets survive the `load_token` call. -/
theorem C9_no_deletion_without_collision_witness :
    "sA" ∈ secretsOf (load_token
      (fun a => if a = 0 then
          EnvEvent.reply ⟨some "t", [("chat", 0)], some 7, none, none⟩
        else EnvEvent.netFail) 100
      ⟨[⟨"", "sA"⟩, ⟨"1", "sB"⟩], [⟨"50", "sC"⟩], none, [], false, "u"⟩).2 ∧
    "sB" ∈ secretsOf (load_token
      (fun a => if a = 0 then
          EnvEvent.reply ⟨some "t", [("chat", 0)], some 7, none, none⟩
        else EnvEvent.netFail) 100
      ⟨[⟨"", "sA"⟩, ⟨"1", "sB"⟩], [⟨"50", "sC"⟩], none, [], false, "u"⟩).2 ∧
    "sC" ∈ secretsOf (load_token
      (fun a => if a = 0 then
          EnvEvent.reply ⟨some "t", [("chat", 0)], some 7, none, none⟩
        else EnvEvent.netFail) 100
      ⟨[⟨"", "sA"⟩, ⟨"1", "sB"⟩], [⟨"50", "sC"⟩], none, [], false, "u"⟩).2 := by
  have h := C9_no_deletion_without_collision
    (fun a => if a = 0 then
        EnvEvent.reply ⟨some "t", [("chat", 0)], some 7, none, none⟩
      else EnvEvent.netFail) 100
    ⟨[⟨"", "sA"⟩, ⟨"1", "sB"⟩], [⟨"50", "sC"⟩], none, [], false, "u"⟩
    (by decide) (by decide) (by decide)
    (by
      intro a b ra rb hne hea heb
      by_cases ha : a = 0
      · by_cases hb : b = 0
        · exact absurd (ha.trans hb.symm) hne
        · simp only [if_neg hb] at heb
          exact EnvEvent.noConfusion heb
      · simp only [if_neg ha] at hea
        exact EnvEvent.noConfusion hea)
    (by
      intro a ra hea
      by_cases ha : a = 0
      · subst ha
        simp only [if_pos rfl] at hea
        injection hea with h1
        subst h1
        decide
      · simp only [if_neg ha] at hea
        exact EnvEvent.noConfusion hea)
  exact ⟨h "sA" (by decide), h "sB" (by decide), h "sC" (by decide)⟩

end CopilotRelay
